import Mathlib

/-!
Verification development for the MEXC signal-bot pipeline.

Shallow embedding of the core components:
the momentum (RSI) calculator (services/analysis/rsi.py),
the candidate price filter and RSI verification step (run_hybrid_optimized.py),
the klines cache (run_hybrid_optimized.py), the price buffer
(services/analysis/price_buffer.py), the rate limiter (services/mexc/monitor.py),
the cooldown tracker, and the sequential verification variant (run_hybrid.py).

Python floats are modelled as rationals; timestamps as rationals; the per-symbol
dictionaries as functions into Option.  Fallible external fetches are modelled as
Option-valued oracles passed in as arguments (none encodes an exception or a
None result of the underlying client call).
-/

namespace TelegromBot

/-! ### Momentum calculator, from services/analysis/rsi.py (class RSICalculator) -/

namespace RSICalculator

/-- Successive price deltas with a zero inserted in front, as in
np.insert(np.diff(prices), 0, 0). -/
def deltas (prices : List ℚ) : List ℚ :=
  0 :: List.zipWith (fun b a => b - a) prices.tail prices

/-- Positive deltas, zero elsewhere: np.where(deltas > 0, deltas, 0). -/
def gains (prices : List ℚ) : List ℚ :=
  (deltas prices).map (fun d => if 0 < d then d else 0)

/-- Absolute values of negative deltas, zero elsewhere:
np.where(deltas < 0, -deltas, 0). -/
def losses (prices : List ℚ) : List ℚ :=
  (deltas prices).map (fun d => if d < 0 then -d else 0)

/-- Wilder's smoothing step: avg = (avg*(period-1) + newValue) / period. -/
def wilderAvg (period : ℕ) (avg x : ℚ) : ℚ :=
  (avg * ((period : ℚ) - 1) + x) / (period : ℚ)

/-- Oscillator value from the two smoothed averages: 100 if the average loss is
zero and the average gain positive, 0 if both vanish, and otherwise
100 - 100/(1 + avg_gain/avg_loss). -/
def rsiValue (avgGain avgLoss : ℚ) : ℚ :=
  if avgLoss = 0 then (if 0 < avgGain then 100 else 0)
  else 100 - 100 / (1 + avgGain / avgLoss)

/-- Main loop of calculate (the for-loop over i in range(period+1, n)), walking the
remaining (gain, loss) pairs while updating the two smoothed averages. -/
def rsiLoop (period : ℕ) : ℚ → ℚ → List (ℚ × ℚ) → List ℚ
  | _, _, [] => []
  | g, l, p :: rest =>
    rsiValue (wilderAvg period g p.1) (wilderAvg period l p.2) ::
      rsiLoop period (wilderAvg period g p.1) (wilderAvg period l p.2) rest

/-- RSICalculator.calculate: fewer than two prices give an all-zero list of the
input's length; at most period prices give the truncated sentinel list; otherwise
the sentinel region of length period is followed by the seeded first value and the
Wilder-smoothed rest. -/
def calculate (prices : List ℚ) (period : ℕ) : List ℚ :=
  if prices.length < 2 then List.replicate prices.length 0
  else if prices.length ≤ period then List.replicate prices.length 0
  else
    let gs := gains prices
    let ls := losses prices
    let avgGain := ((gs.drop 1).take period).sum / (period : ℚ)
    let avgLoss := ((ls.drop 1).take period).sum / (period : ℚ)
    List.replicate period 0 ++
      rsiValue avgGain avgLoss ::
        rsiLoop period avgGain avgLoss ((gs.zip ls).drop (period + 1))

/-- RSICalculator.get_last_rsi: the final oscillator value, or 0 for an empty
result list. -/
def get_last_rsi (prices : List ℚ) (period : ℕ) : ℚ :=
  (calculate prices period).getLastD 0

/-- Smoothed average gain at computed step k (overall index period + k), written
as the specification describes it: the simple mean over the first period deltas,
then Wilder's recurrence reading one further gain per step. -/
def avgGainAt (prices : List ℚ) (period : ℕ) : ℕ → ℚ
  | 0 => (((gains prices).drop 1).take period).sum / (period : ℚ)
  | k + 1 => wilderAvg period (avgGainAt prices period k) ((gains prices).getD (period + k + 1) 0)

/-- Smoothed average loss at computed step k, in the specification's form. -/
def avgLossAt (prices : List ℚ) (period : ℕ) : ℕ → ℚ
  | 0 => (((losses prices).drop 1).take period).sum / (period : ℚ)
  | k + 1 => wilderAvg period (avgLossAt prices period k) ((losses prices).getD (period + k + 1) 0)

/-- RSI sequence as the specification words it: a sentinel region of
min(period, length) zeros followed by one oscillator value per remaining index,
each computed from the indexed recurrences avgGainAt/avgLossAt. -/
def rsiSpec (prices : List ℚ) (period : ℕ) : List ℚ :=
  List.replicate (min period prices.length) 0 ++
    (List.range (prices.length - period)).map
      (fun k => rsiValue (avgGainAt prices period k) (avgLossAt prices period k))

end RSICalculator

/-! ### Candidate filter, from run_hybrid_optimized.py (_maybe_enqueue_price_alert) -/

namespace CandidateFilter

/-- The enumerate-and-break loop of _maybe_enqueue_price_alert: walk the timestamp
list carrying the price just before the current position (None at position 0) and
stop at the first timestamp that reaches the cutoff. -/
def oldPriceLoop (cutoff : ℚ) : Option ℚ → List ℚ → List ℚ → Option ℚ
  | prev, t :: ts, pr => if cutoff ≤ t then prev else oldPriceLoop cutoff pr.head? ts pr.tail
  | _, [], _ => none

/-- Decision of _maybe_enqueue_price_alert as a pure function of the two parallel
buffers: returns (triggered, price_change). -/
def evaluate (threshold now : ℚ) (ts pr : List ℚ) : Bool × ℚ :=
  if pr.length < 2 then (false, 0)
  else
    match oldPriceLoop (now - 900) none ts pr with
    | none => (false, 0)
    | some oldPrice =>
      if oldPrice ≤ 0 then (false, 0)
      else
        let priceChange := |(pr.getLastD 0 - oldPrice) / oldPrice * 100|
        (decide (threshold ≤ priceChange), priceChange)

/-- Reference lookup as the claim words it: the price at the first position whose
timestamp is not older than the window start. -/
def refLoop (cutoff : ℚ) : List ℚ → List ℚ → Option ℚ
  | t :: ts, pr => if cutoff ≤ t then pr.head? else refLoop cutoff ts pr.tail
  | [], _ => none

/-- Candidate filter as the claim describes it: not triggered below 2 entries or
when no entry predates the window start; otherwise the reference is the entry
closest to but not older than the window start, and it triggers iff the reference
is positive and the percentage reaches the threshold. -/
def evaluateSpec (threshold now : ℚ) (ts pr : List ℚ) : Bool × ℚ :=
  if pr.length < 2 then (false, 0)
  else if ts.all (fun t => decide (now - 900 ≤ t)) then (false, 0)
  else
    match refLoop (now - 900) ts pr with
    | none => (false, 0)
    | some ref =>
      let priceChange := |(pr.getLastD 0 - ref) / ref * 100|
      (decide (0 < ref) && decide (threshold ≤ priceChange), priceChange)

end CandidateFilter

/-! ### RSI verification step, from run_hybrid_optimized.py (verify_with_rsi and
send_signal) and run_hybrid.py (verify_with_rsi) -/

/-- Truthiness of a fetched klines value in Python: false for None and for an
empty list. -/
def isData : Option (List ℚ) → Bool
  | none => false
  | some l => !l.isEmpty

/-- Observable outcome of one optimized verification task. -/
structure VerifyOutcome where
  fetched1h : Bool
  fetched15m : Bool
  alerted : Bool
  cooldownUpdated : Bool
  photoSent : Bool
deriving Repr, DecidableEq

namespace HybridOptimized

/-- Effects of send_signal relevant to the claims: the cooldown record is set
first, unconditionally; the photo goes out only if 5m candles were obtained
(from the cache-backed call, else the direct fallback fetch) and the chart was
generated.  Returns (cooldownUpdated, photoSent). -/
def send_signal (c5m c5mDirect : Option (List ℚ)) (chartOk : Bool) : Bool × Bool :=
  let candles := if isData c5m then c5m else c5mDirect
  (true, isData candles && chartOk)

/-- verify_with_rsi of run_hybrid_optimized.py: re-check the cooldown, fetch 1h
klines, require at least 30 closes, compute RSI 1h; only if it is extreme fetch
15m and repeat; send the signal only when both are extreme.  The two candle
oracles stand for the cache-backed fetches. -/
def verify_with_rsi (period : ℕ) (ob os : ℚ) (cooldown lastSignal now : ℚ)
    (k1h k15m : Option (List ℚ)) (c5m c5mDirect : Option (List ℚ)) (chartOk : Bool) :
    VerifyOutcome :=
  if now - lastSignal < cooldown then ⟨false, false, false, false, false⟩
  else if !isData k1h then ⟨true, false, false, false, false⟩
  else
    let prices1h := k1h.getD []
    if prices1h.length < 30 then ⟨true, false, false, false, false⟩
    else
      let rsi1h := RSICalculator.get_last_rsi prices1h period
      let passed1h := decide (ob < rsi1h) || decide (rsi1h < os)
      if !passed1h then ⟨true, false, false, false, false⟩
      else if !isData k15m then ⟨true, true, false, false, false⟩
      else
        let prices15m := k15m.getD []
        if prices15m.length < 30 then ⟨true, true, false, false, false⟩
        else
          let rsi15m := RSICalculator.get_last_rsi prices15m period
          let passed15m := decide (ob < rsi15m) || decide (rsi15m < os)
          if passed1h && passed15m then
            let s := send_signal c5m c5mDirect chartOk
            ⟨true, true, true, s.1, s.2⟩
          else ⟨true, true, false, false, false⟩

end HybridOptimized

namespace Hybrid

/-- verify_with_rsi of run_hybrid.py reduced to its alert decision: both
timeframes are fetched unconditionally; missing data, short data, or a
non-extreme RSI on either timeframe means no alert.  There is no cooldown check
inside this function (its caller performs one). -/
def verify_with_rsi (period : ℕ) (ob os : ℚ) (k1h k15m : Option (List ℚ)) : Bool :=
  if !isData k1h || !isData k15m then false
  else
    let prices1h := k1h.getD []
    let prices15m := k15m.getD []
    if prices1h.length < 30 || prices15m.length < 30 then false
    else
      let rsi1h := RSICalculator.get_last_rsi prices1h period
      let rsi15m := RSICalculator.get_last_rsi prices15m period
      (decide (ob < rsi1h) || decide (rsi1h < os)) &&
        (decide (ob < rsi15m) || decide (rsi15m < os))

end Hybrid

/-! ### Klines cache, from run_hybrid_optimized.py (_get_klines_cached) -/

namespace KlinesCache

/-- Cache TTL in seconds (KLINES_CACHE_TTL). -/
def KLINES_CACHE_TTL : ℚ := 20

/-- _get_klines_cached as a state transformer over the cache map: a hit younger
than the TTL is returned without fetching; otherwise the fetch oracle is
consulted (none encodes an exception, answered by returning None and leaving the
cache untouched), and a truthy result is stored with the current timestamp.
Returns (result, new cache, whether an underlying fetch was performed). -/
def get_klines_cached {κ : Type} [DecidableEq κ] (ttl : ℚ)
    (cache : κ → Option (ℚ × List ℚ)) (key : κ) (now : ℚ) (fetch : Option (List ℚ)) :
    Option (List ℚ) × (κ → Option (ℚ × List ℚ)) × Bool :=
  let hit : Option (List ℚ) :=
    match cache key with
    | some c => if now - c.1 < ttl then some c.2 else none
    | none => none
  match hit with
  | some data => (some data, cache, false)
  | none =>
    match fetch with
    | none => (none, cache, true)
    | some data =>
      (some data,
        if data.isEmpty then cache else Function.update cache key (some (now, data)), true)

end KlinesCache

/-! ### Price buffer, from services/analysis/price_buffer.py (class PriceBuffer) -/

namespace PriceBuffer

/-- PriceBuffer._trim: pop entries from the front while they are older than
now - max_minutes (times measured in minutes). -/
def trim (maxMinutes now : ℚ) (buf : List (ℚ × ℚ)) : List (ℚ × ℚ) :=
  buf.dropWhile (fun e => decide (e.1 < now - maxMinutes))

/-- PriceBuffer.add: append (now, price) and trim. -/
def add (maxMinutes : ℚ) (buf : List (ℚ × ℚ)) (now price : ℚ) : List (ℚ × ℚ) :=
  trim maxMinutes now (buf ++ [(now, price)])

/-- Feed a whole sequence of (time, price) adds into an initially empty buffer. -/
def runAdds (maxMinutes : ℚ) (adds : List (ℚ × ℚ)) : List (ℚ × ℚ) :=
  adds.foldl (fun buf a => add maxMinutes buf a.1 a.2) []

end PriceBuffer

/-! ### Rate limiter, from services/mexc/monitor.py (class RateLimiter) -/

namespace RateLimiter

/-- Time at which RateLimiter.wait grants its permit, given the stored time of
the previous grant and the arrival time of the call.  If the elapsed time is
below min_interval the caller sleeps for the difference; slack models the
nonnegative extra delay of the sleep and of re-reading the clock. -/
def waitGrant (minInterval lastRequestTime now slack : ℚ) : ℚ :=
  if now - lastRequestTime < minInterval then
    now + (minInterval - (now - lastRequestTime)) + slack
  else now + slack

/-- Grant times of a sequence of sequential wait calls, threading the stored
last_request_time; each call is an (arrival time, slack) pair. -/
def grants (minInterval : ℚ) : ℚ → List (ℚ × ℚ) → List ℚ
  | _, [] => []
  | last, c :: rest =>
    waitGrant minInterval last c.1 c.2 :: grants minInterval (waitGrant minInterval last c.1 c.2) rest

end RateLimiter

/-! ### Cooldown tracker, from run_hybrid_optimized.py (_verify_worker,
verify_with_rsi, send_signal) -/

namespace Cooldown

/-- Eligibility check as written at every check site:
last = last_signal_time.get(symbol, 0); eligible unless now - last < cooldown. -/
def is_eligible {κ : Type} (lastSignalTime : κ → Option ℚ) (symbol : κ)
    (cooldown now : ℚ) : Bool :=
  !decide (now - (lastSignalTime symbol).getD 0 < cooldown)

/-- Recording an alert: send_signal sets last_signal_time[symbol] = now. -/
def record_alert {κ : Type} [DecidableEq κ] (m : κ → Option ℚ) (symbol : κ)
    (now : ℚ) : κ → Option ℚ :=
  Function.update m symbol (some now)

end Cooldown

/-! ### Helper lemmas -/

namespace RateLimiter

theorem waitGrant_ge (minInterval last now slack : ℚ) (hs : 0 ≤ slack) :
    last + minInterval ≤ waitGrant minInterval last now slack := by
  unfold waitGrant
  split <;> linarith

theorem grants_chain (minInterval : ℚ) :
    ∀ (calls : List (ℚ × ℚ)), (∀ c ∈ calls, 0 ≤ c.2) → ∀ last : ℚ,
    List.Chain' (fun a b => a + minInterval ≤ b) (grants minInterval last calls)
  | [], _, _ => List.chain'_nil
  | c :: rest, hs, last => by
    rw [grants]
    refine List.chain'_cons'.2 ⟨?_, ?_⟩
    · intro y hy
      cases rest with
      | nil => simp [grants] at hy
      | cons c' rest' =>
        rw [grants] at hy
        simp only [List.head?_cons, Option.mem_def, Option.some.injEq] at hy
        subst hy
        exact waitGrant_ge _ _ _ _ (hs c' (by simp))
    · exact grants_chain minInterval rest (fun x hx => hs x (List.mem_cons_of_mem _ hx)) _

theorem chain_spacing_total (d : ℚ) :
    ∀ (l : List ℚ), List.Chain' (fun a b => a + d ≤ b) l → l ≠ [] →
    ((l.length : ℚ) - 1) * d ≤ l.getLastD 0 - l.headD 0
  | [], _, hne => absurd rfl hne
  | [x], _, _ => by simp
  | x :: y :: tl, hc, _ => by
    have hxy : x + d ≤ y := (List.chain'_cons.1 hc).1
    have ih := chain_spacing_total d (y :: tl) (List.chain'_cons.1 hc).2 (by simp)
    have hlast : (x :: y :: tl).getLastD 0 = (y :: tl).getLastD 0 := by
      simp [List.getLastD_eq_getLast?]
    rw [hlast]
    simp only [List.headD_cons, List.length_cons] at *
    push_cast
    push_cast at ih
    linarith

theorem grants_length (minInterval : ℚ) :
    ∀ (calls : List (ℚ × ℚ)) (last : ℚ), (grants minInterval last calls).length = calls.length
  | [], _ => rfl
  | _ :: rest, last => by
    rw [grants]
    simp [grants_length minInterval rest]

end RateLimiter

namespace RSICalculator

theorem getD_drop {α : Type} (l : List α) (m k : ℕ) (d : α) :
    (l.drop m).getD k d = l.getD (m + k) d := by
  simp [List.getD_eq_getElem?_getD, List.getElem?_drop]

theorem zip_getD_fst (as bs : List ℚ) (j : ℕ) (h : j < (as.zip bs).length) :
    ((as.zip bs).getD j (0, 0)).1 = as.getD j 0 := by
  have hj : j < as.length := lt_of_lt_of_le h (by simp [List.length_zip])
  rw [List.getD_eq_getElem _ _ h, List.getElem_zip, List.getD_eq_getElem _ _ hj]

theorem zip_getD_snd (as bs : List ℚ) (j : ℕ) (h : j < (as.zip bs).length) :
    ((as.zip bs).getD j (0, 0)).2 = bs.getD j 0 := by
  have hj : j < bs.length := lt_of_lt_of_le h (by simp [List.length_zip])
  rw [List.getD_eq_getElem _ _ h, List.getElem_zip, List.getD_eq_getElem _ _ hj]

theorem deltas_length (prices : List ℚ) (h : 1 ≤ prices.length) :
    (deltas prices).length = prices.length := by
  cases prices with
  | nil => simp at h
  | cons p ps =>
    simp only [deltas, List.tail_cons, List.length_cons, List.length_zipWith]
    omega

theorem gains_length (prices : List ℚ) (h : 1 ≤ prices.length) :
    (gains prices).length = prices.length := by
  simp [gains, deltas_length prices h]

theorem losses_length (prices : List ℚ) (h : 1 ≤ prices.length) :
    (losses prices).length = prices.length := by
  simp [losses, deltas_length prices h]

theorem rsiLoop_eq_map (period : ℕ) :
    ∀ (zs : List (ℚ × ℚ)) (G L : ℕ → ℚ),
    (∀ k, k < zs.length → G (k + 1) = wilderAvg period (G k) (zs.getD k (0, 0)).1) →
    (∀ k, k < zs.length → L (k + 1) = wilderAvg period (L k) (zs.getD k (0, 0)).2) →
    rsiLoop period (G 0) (L 0) zs =
      (List.range zs.length).map (fun k => rsiValue (G (k + 1)) (L (k + 1)))
  | [], _, _, _, _ => rfl
  | z :: rest, G, L, hG, hL => by
    have hG0 := hG 0 (by simp)
    have hL0 := hL 0 (by simp)
    simp only [List.getD_cons_zero] at hG0 hL0
    have ih := rsiLoop_eq_map period rest (fun k => G (k + 1)) (fun k => L (k + 1))
      (fun k hk => by
        have := hG (k + 1) (by simpa using Nat.succ_lt_succ hk)
        simpa using this)
      (fun k hk => by
        have := hL (k + 1) (by simpa using Nat.succ_lt_succ hk)
        simpa using this)
    rw [rsiLoop, ← hG0, ← hL0, List.length_cons, List.range_succ_eq_map,
      List.map_cons, List.map_map]
    refine congrArg₂ (· :: ·) rfl ?_
    simpa [Function.comp] using ih

theorem calculate_eq_rsiSpec (prices : List ℚ) (period : ℕ) (hp : 1 ≤ period) :
    calculate prices period = rsiSpec prices period := by
  by_cases h2 : prices.length < 2
  · rw [calculate, if_pos h2, rsiSpec]
    match prices, h2 with
    | [], _ => simp
    | [p], _ =>
      have h0 : 1 - period = 0 := by omega
      simp [h0, Nat.min_eq_right hp]
  · by_cases hnp : prices.length ≤ period
    · rw [calculate, if_neg h2, if_pos hnp, rsiSpec, Nat.min_eq_right hnp]
      have h0 : prices.length - period = 0 := by omega
      simp [h0]
    · push_neg at h2 hnp
      have h1 : 1 ≤ prices.length := by omega
      have hzipLen : ((gains prices).zip (losses prices)).length = prices.length := by
        simp [List.length_zip, gains_length prices h1, losses_length prices h1]
      have hzsLen :
          (((gains prices).zip (losses prices)).drop (period + 1)).length =
            prices.length - (period + 1) := by
        simp [hzipLen]
      have hG : ∀ k, k < (((gains prices).zip (losses prices)).drop (period + 1)).length →
          avgGainAt prices period (k + 1) =
            wilderAvg period (avgGainAt prices period k)
              ((((gains prices).zip (losses prices)).drop (period + 1)).getD k (0, 0)).1 := by
        intro k hk
        rw [avgGainAt, getD_drop, zip_getD_fst]
        · have : period + 1 + k = period + k + 1 := by omega
          rw [this]
        · rw [hzipLen]
          rw [hzsLen] at hk
          omega
      have hL : ∀ k, k < (((gains prices).zip (losses prices)).drop (period + 1)).length →
          avgLossAt prices period (k + 1) =
            wilderAvg period (avgLossAt prices period k)
              ((((gains prices).zip (losses prices)).drop (period + 1)).getD k (0, 0)).2 := by
        intro k hk
        rw [avgLossAt, getD_drop, zip_getD_snd]
        · have : period + 1 + k = period + k + 1 := by omega
          rw [this]
        · rw [hzipLen]
          rw [hzsLen] at hk
          omega
      have hloop := rsiLoop_eq_map period
        (((gains prices).zip (losses prices)).drop (period + 1))
        (avgGainAt prices period) (avgLossAt prices period) hG hL
      rw [calculate, if_neg (by omega), if_neg (by omega), rsiSpec,
        Nat.min_eq_left (le_of_lt hnp)]
      refine congrArg₂ (· ++ ·) rfl ?_
      have hrange : prices.length - period =
          (((gains prices).zip (losses prices)).drop (period + 1)).length + 1 := by
        rw [hzsLen]
        omega
      rw [hrange, List.range_succ_eq_map, List.map_cons, List.map_map]
      refine congrArg₂ (· :: ·) rfl ?_
      rw [show avgGainAt prices period 0 =
            (((gains prices).drop 1).take period).sum / (period : ℚ) from rfl,
          show avgLossAt prices period 0 =
            (((losses prices).drop 1).take period).sum / (period : ℚ) from rfl] at hloop
      rw [hloop]
      rfl

theorem calculate_length (prices : List ℚ) (period : ℕ) (hp : 1 ≤ period) :
    (calculate prices period).length = prices.length := by
  rw [calculate_eq_rsiSpec prices period hp, rsiSpec]
  simp only [List.length_append, List.length_replicate, List.length_map,
    List.length_range]
  omega

theorem zipWith_sub_pos :
    ∀ (prices : List ℚ), List.Chain' (· < ·) prices →
    ∀ x ∈ List.zipWith (fun b a => b - a) prices.tail prices, 0 < x
  | [], _, x, hx => by simp at hx
  | [_], _, x, hx => by simp at hx
  | p :: q :: rest, h, x, hx => by
    rw [List.tail_cons, List.zipWith_cons_cons] at hx
    rcases List.mem_cons.1 hx with rfl | hmem
    · have := (List.chain'_cons.1 h).1
      linarith
    · exact zipWith_sub_pos (q :: rest) (List.chain'_cons.1 h).2 x hmem

theorem zipWith_sub_neg :
    ∀ (prices : List ℚ), List.Chain' (· > ·) prices →
    ∀ x ∈ List.zipWith (fun b a => b - a) prices.tail prices, x < 0
  | [], _, x, hx => by simp at hx
  | [_], _, x, hx => by simp at hx
  | p :: q :: rest, h, x, hx => by
    rw [List.tail_cons, List.zipWith_cons_cons] at hx
    rcases List.mem_cons.1 hx with rfl | hmem
    · have := (List.chain'_cons.1 h).1
      linarith
    · exact zipWith_sub_neg (q :: rest) (List.chain'_cons.1 h).2 x hmem

theorem losses_all_zero_of_inc (prices : List ℚ) (h : List.Chain' (· < ·) prices) :
    ∀ x ∈ losses prices, x = 0 := by
  intro x hx
  rw [losses] at hx
  obtain ⟨d, hd, hfx⟩ := List.mem_map.1 hx
  subst hfx
  rw [deltas] at hd
  rcases List.mem_cons.1 hd with rfl | hmem
  · norm_num
  · have hpos := zipWith_sub_pos prices h d hmem
    show (if d < 0 then -d else 0) = 0
    rw [if_neg (not_lt.2 (le_of_lt hpos))]

theorem gains_all_zero_of_dec (prices : List ℚ) (h : List.Chain' (· > ·) prices) :
    ∀ x ∈ gains prices, x = 0 := by
  intro x hx
  rw [gains] at hx
  obtain ⟨d, hd, hfx⟩ := List.mem_map.1 hx
  subst hfx
  rw [deltas] at hd
  rcases List.mem_cons.1 hd with rfl | hmem
  · norm_num
  · have hneg := zipWith_sub_neg prices h d hmem
    show (if 0 < d then d else 0) = 0
    rw [if_neg (not_lt.2 (le_of_lt hneg))]

theorem gains_drop_one_pos_of_inc (prices : List ℚ) (h : List.Chain' (· < ·) prices) :
    ∀ x ∈ (gains prices).drop 1, 0 < x := by
  intro x hx
  have hdrop : (gains prices).drop 1 =
      (List.zipWith (fun b a => b - a) prices.tail prices).map
        (fun d => if 0 < d then d else 0) := by
    rw [gains, deltas]
    rfl
  rw [hdrop] at hx
  obtain ⟨d, hd, hfx⟩ := List.mem_map.1 hx
  subst hfx
  have hdpos := zipWith_sub_pos prices h d hd
  show 0 < if 0 < d then d else 0
  rw [if_pos hdpos]
  exact hdpos

theorem losses_drop_one_pos_of_dec (prices : List ℚ) (h : List.Chain' (· > ·) prices) :
    ∀ x ∈ (losses prices).drop 1, 0 < x := by
  intro x hx
  have hdrop : (losses prices).drop 1 =
      (List.zipWith (fun b a => b - a) prices.tail prices).map
        (fun d => if d < 0 then -d else 0) := by
    rw [losses, deltas]
    rfl
  rw [hdrop] at hx
  obtain ⟨d, hd, hfx⟩ := List.mem_map.1 hx
  subst hfx
  have hdneg := zipWith_sub_neg prices h d hd
  show 0 < if d < 0 then -d else 0
  rw [if_pos hdneg]
  linarith

theorem wilderAvg_pos (period : ℕ) (hp : 1 ≤ period) (g x : ℚ)
    (hg : 0 < g) (hx : 0 < x) : 0 < wilderAvg period g x := by
  have hper : (0 : ℚ) < (period : ℚ) := by exact_mod_cast Nat.lt_of_lt_of_le Nat.zero_lt_one hp
  have hper1 : (1 : ℚ) ≤ (period : ℚ) := by exact_mod_cast hp
  have hmul : 0 ≤ g * ((period : ℚ) - 1) := mul_nonneg (le_of_lt hg) (by linarith)
  rw [wilderAvg]
  apply div_pos ?_ hper
  linarith

theorem wilderAvg_zero (period : ℕ) : wilderAvg period 0 0 = 0 := by
  rw [wilderAvg]
  simp

theorem rsiValue_pos_zero (g : ℚ) (hg : 0 < g) : rsiValue g 0 = 100 := by
  rw [rsiValue, if_pos rfl, if_pos hg]

theorem rsiValue_zero_pos (l : ℚ) (hl : 0 < l) : rsiValue 0 l = 0 := by
  rw [rsiValue, if_neg (ne_of_gt hl)]
  rw [zero_div]
  norm_num

theorem rsiLoop_all_100 (period : ℕ) (hp : 1 ≤ period) :
    ∀ (zs : List (ℚ × ℚ)) (g l : ℚ), 0 < g → l = 0 →
    (∀ z ∈ zs, 0 < z.1 ∧ z.2 = 0) →
    rsiLoop period g l zs = List.replicate zs.length 100
  | [], _, _, _, _, _ => rfl
  | z :: rest, g, l, hg, hl, hz => by
    obtain ⟨hz1, hz2⟩ := hz z (List.mem_cons_self z rest)
    have hg' : 0 < wilderAvg period g z.1 := wilderAvg_pos period hp g z.1 hg hz1
    have hl' : wilderAvg period l z.2 = 0 := by
      rw [hl, hz2]
      exact wilderAvg_zero period
    rw [rsiLoop, hl', rsiValue_pos_zero _ hg', List.length_cons, List.replicate_succ]
    refine congrArg₂ (· :: ·) rfl ?_
    exact rsiLoop_all_100 period hp rest _ _ hg' rfl
      (fun w hw => hz w (List.mem_cons_of_mem _ hw))

theorem rsiLoop_all_0 (period : ℕ) (hp : 1 ≤ period) :
    ∀ (zs : List (ℚ × ℚ)) (g l : ℚ), g = 0 → 0 < l →
    (∀ z ∈ zs, z.1 = 0 ∧ 0 < z.2) →
    rsiLoop period g l zs = List.replicate zs.length 0
  | [], _, _, _, _, _ => rfl
  | z :: rest, g, l, hg, hl, hz => by
    obtain ⟨hz1, hz2⟩ := hz z (List.mem_cons_self z rest)
    have hl' : 0 < wilderAvg period l z.2 := wilderAvg_pos period hp l z.2 hl hz2
    have hg' : wilderAvg period g z.1 = 0 := by
      rw [hg, hz1]
      exact wilderAvg_zero period
    rw [rsiLoop, hg', rsiValue_zero_pos _ hl', List.length_cons, List.replicate_succ]
    refine congrArg₂ (· :: ·) rfl ?_
    exact rsiLoop_all_0 period hp rest _ _ rfl hl'
      (fun w hw => hz w (List.mem_cons_of_mem _ hw))

theorem drop_zip (as bs : List ℚ) (n : ℕ) :
    (as.zip bs).drop n = (as.drop n).zip (bs.drop n) := by
  rw [List.zip_eq_zipWith, List.zip_eq_zipWith, List.drop_zipWith]

theorem calculate_of_lt (prices : List ℚ) (period : ℕ) (h2 : 2 ≤ prices.length)
    (hnp : period < prices.length) :
    calculate prices period =
      List.replicate period 0 ++
        rsiValue ((((gains prices).drop 1).take period).sum / (period : ℚ))
            ((((losses prices).drop 1).take period).sum / (period : ℚ)) ::
          rsiLoop period ((((gains prices).drop 1).take period).sum / (period : ℚ))
            ((((losses prices).drop 1).take period).sum / (period : ℚ))
            (((gains prices).zip (losses prices)).drop (period + 1)) := by
  rw [calculate, if_neg (by omega), if_neg (by omega)]

theorem calculate_const_inc (prices : List ℚ) (period : ℕ) (hp : 1 ≤ period)
    (hn : period < prices.length) (hinc : List.Chain' (· < ·) prices) :
    calculate prices period =
      List.replicate period 0 ++ List.replicate (prices.length - period) 100 := by
  have h1 : 1 ≤ prices.length := by omega
  have hgl : (gains prices).length = prices.length := gains_length prices h1
  have hll : (losses prices).length = prices.length := losses_length prices h1
  rw [calculate_of_lt prices period (by omega) hn]
  have haL : (((losses prices).drop 1).take period).sum / (period : ℚ) = 0 := by
    rw [List.sum_eq_zero, zero_div]
    intro x hx
    exact losses_all_zero_of_inc prices hinc x
      (List.mem_of_mem_drop (List.mem_of_mem_take hx))
  have haG : 0 < (((gains prices).drop 1).take period).sum / (period : ℚ) := by
    apply div_pos
    · apply List.sum_pos
      · intro x hx
        exact gains_drop_one_pos_of_inc prices hinc x (List.mem_of_mem_take hx)
      · apply List.ne_nil_of_length_pos
        rw [List.length_take, List.length_drop, hgl]
        omega
    · exact_mod_cast Nat.lt_of_lt_of_le Nat.zero_lt_one hp
  have hzs : ∀ z ∈ ((gains prices).zip (losses prices)).drop (period + 1),
      0 < z.1 ∧ z.2 = 0 := by
    intro z hz
    have hz1 : z ∈ ((gains prices).zip (losses prices)).drop 1 :=
      List.drop_subset_drop_left _ (by omega) hz
    rw [drop_zip] at hz1
    obtain ⟨a, b⟩ := z
    obtain ⟨ha, hb⟩ := List.of_mem_zip hz1
    exact ⟨gains_drop_one_pos_of_inc prices hinc a ha,
      losses_all_zero_of_inc prices hinc b (List.mem_of_mem_drop hb)⟩
  rw [haL, rsiValue_pos_zero _ haG,
    rsiLoop_all_100 period hp _ _ _ haG rfl hzs, ← List.replicate_succ]
  have hcount : (((gains prices).zip (losses prices)).drop (period + 1)).length + 1 =
      prices.length - period := by
    rw [List.length_drop, List.length_zip, hgl, hll]
    omega
  rw [hcount]

theorem calculate_const_dec (prices : List ℚ) (period : ℕ) (hp : 1 ≤ period)
    (hn : period < prices.length) (hdec : List.Chain' (· > ·) prices) :
    calculate prices period =
      List.replicate period 0 ++ List.replicate (prices.length - period) 0 := by
  have h1 : 1 ≤ prices.length := by omega
  have hgl : (gains prices).length = prices.length := gains_length prices h1
  have hll : (losses prices).length = prices.length := losses_length prices h1
  rw [calculate_of_lt prices period (by omega) hn]
  have haG : (((gains prices).drop 1).take period).sum / (period : ℚ) = 0 := by
    rw [List.sum_eq_zero, zero_div]
    intro x hx
    exact gains_all_zero_of_dec prices hdec x
      (List.mem_of_mem_drop (List.mem_of_mem_take hx))
  have haL : 0 < (((losses prices).drop 1).take period).sum / (period : ℚ) := by
    apply div_pos
    · apply List.sum_pos
      · intro x hx
        exact losses_drop_one_pos_of_dec prices hdec x (List.mem_of_mem_take hx)
      · apply List.ne_nil_of_length_pos
        rw [List.length_take, List.length_drop, hll]
        omega
    · exact_mod_cast Nat.lt_of_lt_of_le Nat.zero_lt_one hp
  have hzs : ∀ z ∈ ((gains prices).zip (losses prices)).drop (period + 1),
      z.1 = 0 ∧ 0 < z.2 := by
    intro z hz
    have hz1 : z ∈ ((gains prices).zip (losses prices)).drop 1 :=
      List.drop_subset_drop_left _ (by omega) hz
    rw [drop_zip] at hz1
    obtain ⟨a, b⟩ := z
    obtain ⟨ha, hb⟩ := List.of_mem_zip hz1
    exact ⟨gains_all_zero_of_dec prices hdec a (List.mem_of_mem_drop ha),
      losses_drop_one_pos_of_dec prices hdec b hb⟩
  rw [haG, rsiValue_zero_pos _ haL,
    rsiLoop_all_0 period hp _ _ _ rfl haL hzs, ← List.replicate_succ]
  have hcount : (((gains prices).zip (losses prices)).drop (period + 1)).length + 1 =
      prices.length - period := by
    rw [List.length_drop, List.length_zip, hgl, hll]
    omega
  rw [hcount]

theorem getD_replicate_append (a : ℚ) (p m i : ℕ) (hi : p ≤ i) (him : i < p + m) :
    (List.replicate p (0 : ℚ) ++ List.replicate m a).getD i 0 = a := by
  rw [List.getD_append_right _ _ _ _ (by simpa using hi), List.length_replicate,
    List.getD_eq_getElem _ _ (by rw [List.length_replicate]; omega)]
  simp

end RSICalculator

namespace CandidateFilter

theorem oldPriceLoop_none_of_head_ge (cutoff : ℚ) (ts pr : List ℚ)
    (h : ∀ t ∈ ts, cutoff ≤ t) : oldPriceLoop cutoff none ts pr = none := by
  cases ts with
  | nil => rfl
  | cons t ts' => simp [oldPriceLoop, h t (List.mem_cons_self t ts')]

theorem oldPriceLoop_none_of_all_lt (cutoff : ℚ) :
    ∀ (ts pr : List ℚ) (prev : Option ℚ), (∀ t ∈ ts, t < cutoff) →
    oldPriceLoop cutoff prev ts pr = none
  | [], _, _, _ => rfl
  | t :: ts', pr, prev, h => by
    have ht := h t (List.mem_cons_self t ts')
    rw [oldPriceLoop, if_neg (not_le.2 ht)]
    exact oldPriceLoop_none_of_all_lt cutoff ts' pr.tail pr.head?
      (fun x hx => h x (List.mem_cons_of_mem _ hx))

theorem oldPriceLoop_break (cutoff t₀ : ℚ) (B : List ℚ) :
    ∀ (A pr : List ℚ) (prev : Option ℚ),
    (∀ a ∈ A, a < cutoff) → cutoff ≤ t₀ → A ≠ [] → A.length ≤ pr.length →
    oldPriceLoop cutoff prev (A ++ t₀ :: B) pr = some (pr.getD (A.length - 1) 0)
  | [], _, _, _, _, hne, _ => absurd rfl hne
  | [a], pr, prev, hA, ht₀, _, hlen => by
    have ha := hA a (List.mem_singleton.2 rfl)
    cases pr with
    | nil => simp at hlen
    | cons p pr' =>
      rw [List.singleton_append, oldPriceLoop, if_neg (not_le.2 ha), oldPriceLoop,
        if_pos ht₀]
      rfl
  | a :: a' :: A'', pr, prev, hA, ht₀, _, hlen => by
    have ha := hA a (List.mem_cons_self _ _)
    cases pr with
    | nil => simp at hlen
    | cons p pr' =>
      rw [List.cons_append, oldPriceLoop, if_neg (not_le.2 ha)]
      have ih := oldPriceLoop_break cutoff t₀ B (a' :: A'') pr' (some p)
        (fun x hx => hA x (List.mem_cons_of_mem _ hx)) ht₀ (by simp)
        (by simpa using Nat.le_of_succ_le_succ hlen)
      simpa using ih

end CandidateFilter

namespace PriceBuffer

theorem chain_all_ge (c : ℚ) :
    ∀ (l : List (ℚ × ℚ)), List.Chain' (fun a b => a.1 ≤ b.1) l →
    (∀ e ∈ l.head?, c ≤ e.1) → ∀ e ∈ l, c ≤ e.1
  | [], _, _, _, he => absurd he (List.not_mem_nil _)
  | e₀ :: rest, hc, hh, e, he => by
    have h₀ : c ≤ e₀.1 := hh e₀ rfl
    rcases List.mem_cons.1 he with rfl | hmem
    · exact h₀
    · obtain ⟨hrel, hrest⟩ := List.chain'_cons'.1 hc
      exact chain_all_ge c rest hrest
        (fun y hy => le_trans h₀ (hrel y hy)) e hmem

theorem trim_props (W now : ℚ) :
    ∀ (buf : List (ℚ × ℚ)), List.Chain' (fun a b => a.1 ≤ b.1) buf →
    List.Chain' (fun a b => a.1 ≤ b.1) (trim W now buf) ∧
    (∀ e ∈ trim W now buf, now - W ≤ e.1) ∧
    (∀ e ∈ trim W now buf, e ∈ buf)
  | [], _ => by simp [trim]
  | e₀ :: rest, hc => by
    obtain ⟨hrel, hrest⟩ := List.chain'_cons'.1 hc
    by_cases h₀ : e₀.1 < now - W
    · have ih := trim_props W now rest hrest
      have htrim : trim W now (e₀ :: rest) = trim W now rest := by
        simp [trim, List.dropWhile_cons, h₀]
      rw [htrim]
      exact ⟨ih.1, ih.2.1, fun e he => List.mem_cons_of_mem _ (ih.2.2 e he)⟩
    · have htrim : trim W now (e₀ :: rest) = e₀ :: rest := by
        simp [trim, List.dropWhile_cons, h₀]
      rw [htrim]
      refine ⟨hc, ?_, fun e he => he⟩
      exact chain_all_ge (now - W) (e₀ :: rest) hc
        (fun y hy => by
          simp only [List.head?_cons, Option.mem_def, Option.some.injEq] at hy
          subst hy
          exact le_of_not_lt h₀)

theorem add_props (W : ℚ) (buf : List (ℚ × ℚ)) (now price : ℚ)
    (hs : List.Chain' (fun a b => a.1 ≤ b.1) buf) (hle : ∀ e ∈ buf, e.1 ≤ now) :
    List.Chain' (fun a b => a.1 ≤ b.1) (add W buf now price) ∧
    (∀ e ∈ add W buf now price, e.1 ≤ now) ∧
    (∀ e ∈ add W buf now price, now - W ≤ e.1) := by
  have happ : List.Chain' (fun a b => a.1 ≤ b.1) (buf ++ [(now, price)]) := by
    refine List.Chain'.append hs (List.chain'_singleton _) ?_
    intro x hx y hy
    simp only [List.head?_cons, Option.mem_def, Option.some.injEq] at hy
    subst hy
    exact hle x (List.mem_of_getLast?_eq_some hx)
  have happle : ∀ e ∈ buf ++ [(now, price)], e.1 ≤ now := by
    intro e he
    rcases List.mem_append.1 he with h | h
    · exact hle e h
    · simp only [List.mem_singleton] at h
      subst h
      exact le_refl _
  obtain ⟨h1, h2, h3⟩ := trim_props W now (buf ++ [(now, price)]) happ
  exact ⟨h1, fun e he => happle e (h3 e he), h2⟩

theorem foldAdds (W : ℚ) :
    ∀ (adds : List (ℚ × ℚ)) (buf : List (ℚ × ℚ)) (t : ℚ),
    List.Chain' (fun a b => a.1 ≤ b.1) buf → (∀ e ∈ buf, e.1 ≤ t) →
    List.Chain' (fun a b => a.1 ≤ b.1) adds → (∀ a ∈ adds.head?, t ≤ a.1) →
    List.Chain' (fun a b => a.1 ≤ b.1)
      (adds.foldl (fun b a => add W b a.1 a.2) buf) ∧
    (∀ lastA ∈ adds.getLast?, ∀ e ∈ adds.foldl (fun b a => add W b a.1 a.2) buf,
      e.1 ≤ lastA.1 ∧ lastA.1 - W ≤ e.1)
  | [], buf, t, hsort, _, _, _ => by
    refine ⟨hsort, ?_⟩
    intro lastA hlast
    simp at hlast
  | a :: rest, buf, t, hsort, hle, hchain, hhead => by
    have hta : t ≤ a.1 := hhead a rfl
    obtain ⟨hrel, hrest⟩ := List.chain'_cons'.1 hchain
    obtain ⟨h1, h2, h3⟩ := add_props W buf a.1 a.2 hsort (fun e he => le_trans (hle e he) hta)
    have hfold :
        (a :: rest).foldl (fun b x => add W b x.1 x.2) buf =
          rest.foldl (fun b x => add W b x.1 x.2) (add W buf a.1 a.2) := rfl
    cases rest with
    | nil =>
      rw [hfold]
      refine ⟨h1, ?_⟩
      intro lastA hlast e he
      simp only [List.getLast?_singleton, Option.mem_def, Option.some.injEq] at hlast
      subst hlast
      exact ⟨h2 e he, h3 e he⟩
    | cons b rest' =>
      have ih := foldAdds W (b :: rest') (add W buf a.1 a.2) a.1 h1 h2 hrest hrel
      rw [hfold]
      refine ⟨ih.1, ?_⟩
      intro lastA hlast e he
      rw [List.getLast?_cons_cons] at hlast
      exact ih.2 lastA hlast e he

end PriceBuffer

/-- Thirty strictly increasing closes, used as concrete input by witnesses and
counterexamples; its RSI is exactly 100 for period 14. -/
def upList30 : List ℚ :=
  [0, 1, 2, 3, 4, 5, 6, 7, 8, 9, 10, 11, 12, 13, 14, 15, 16, 17, 18, 19,
   20, 21, 22, 23, 24, 25, 26, 27, 28, 29]

set_option maxHeartbeats 1000000 in
theorem get_last_rsi_upList30 : RSICalculator.get_last_rsi upList30 14 = 100 := by
  norm_num [RSICalculator.get_last_rsi, RSICalculator.calculate, RSICalculator.deltas,
    RSICalculator.gains, RSICalculator.losses, RSICalculator.rsiLoop,
    RSICalculator.wilderAvg, RSICalculator.rsiValue, upList30,
    List.getLastD_eq_getLast?, List.getLast?_append, List.replicate]

/-! ### Claim theorems -/

/-- C1 (amended): the candidate filter returns not-triggered, without raising,
whenever the buffer holds fewer than 2 entries, or no buffered entry predates
the window start, or every buffered entry predates the window start; otherwise
the reference is the entry immediately preceding the first entry whose
timestamp reaches the window start (not, as the claim stated, that first
sufficiently-recent entry itself), and with a positive reference it triggers iff
abs((latest - reference)/reference*100) is at least the threshold. -/
theorem C1_candidate_filter (threshold now : ℚ) (ts pr : List ℚ) :
    (pr.length < 2 → CandidateFilter.evaluate threshold now ts pr = (false, 0)) ∧
    ((∀ t ∈ ts, now - 900 ≤ t) →
      CandidateFilter.evaluate threshold now ts pr = (false, 0)) ∧
    ((∀ t ∈ ts, t < now - 900) →
      CandidateFilter.evaluate threshold now ts pr = (false, 0)) ∧
    (∀ (A B : List ℚ) (t₀ : ℚ), ts = A ++ t₀ :: B → (∀ a ∈ A, a < now - 900) →
      now - 900 ≤ t₀ → A ≠ [] → A.length ≤ pr.length → 2 ≤ pr.length →
      0 < pr.getD (A.length - 1) 0 →
      CandidateFilter.evaluate threshold now ts pr =
        (decide (threshold ≤ |(pr.getLastD 0 - pr.getD (A.length - 1) 0) /
            pr.getD (A.length - 1) 0 * 100|),
          |(pr.getLastD 0 - pr.getD (A.length - 1) 0) /
            pr.getD (A.length - 1) 0 * 100|)) := by
  refine ⟨?_, ?_, ?_, ?_⟩
  · intro h
    simp [CandidateFilter.evaluate, h]
  · intro h
    by_cases hlen : pr.length < 2
    · simp [CandidateFilter.evaluate, hlen]
    · simp [CandidateFilter.evaluate, hlen,
        CandidateFilter.oldPriceLoop_none_of_head_ge (now - 900) ts pr h]
  · intro h
    by_cases hlen : pr.length < 2
    · simp [CandidateFilter.evaluate, hlen]
    · simp [CandidateFilter.evaluate, hlen,
        CandidateFilter.oldPriceLoop_none_of_all_lt (now - 900) ts pr none h]
  · intro A B t₀ hts hA ht₀ hAne hAlen hprlen href
    subst hts
    have hloop := CandidateFilter.oldPriceLoop_break (now - 900) t₀ B A pr none
      hA ht₀ hAne hAlen
    simp only [CandidateFilter.evaluate, hloop, not_lt.2 hprlen, if_false,
      if_neg (not_lt.2 hprlen), if_neg (not_le.2 href)]

/-- Counterexample to C1 as stated: with buffer timestamps [0, 950, 1000] and
prices [100, 200, 206] at now = 1000 and threshold 8, the code uses the entry
preceding the first in-window entry (price 100, giving 106%) and triggers, while
the claim's reference (the first entry not older than the window start, price
200) gives 3% and would not trigger. -/
theorem C1_candidate_filter_counterexample :
    (CandidateFilter.evaluate 8 1000 [0, 950, 1000] [100, 200, 206]).1 = true ∧
    (CandidateFilter.evaluateSpec 8 1000 [0, 950, 1000] [100, 200, 206]).1 = false := by
  have habs : |((206 : ℚ) - 100) / 100 * 100| = 106 := by
    rw [abs_of_nonneg] <;> norm_num
  have habs2 : |((206 : ℚ) - 200) / 200 * 100| = 3 := by
    rw [abs_of_nonneg] <;> norm_num
  constructor
  · norm_num [CandidateFilter.evaluate, CandidateFilter.oldPriceLoop, List.getLastD, habs]
  · norm_num [CandidateFilter.evaluateSpec, CandidateFilter.refLoop, List.getLastD, habs2]

/-- Witness for C1 at the specification's own example: prices moving 100 to 108
across the window with threshold 8 trigger with change 8. -/
theorem C1_candidate_filter_witness :
    CandidateFilter.evaluate 8 1000 [50, 950, 1000] [100, 100, 108] = (true, 8) := by
  have h := (C1_candidate_filter 8 1000 [50, 950, 1000] [100, 100, 108]).2.2.2
    [50] [1000] 950 rfl
    (by intro a ha; rw [List.mem_singleton] at ha; subst ha; norm_num)
    (by norm_num) (by simp) (by norm_num) (by norm_num)
    (by norm_num)
  rw [h]
  have habs : |(((108 : ℚ)) - 100) / 100 * 100| = 8 := by
    rw [abs_of_nonneg] <;> norm_num
  norm_num [List.getLastD, habs]

/-- C6: after any sequence of PriceBuffer.add operations under a non-decreasing
clock, the buffer is ordered by non-decreasing timestamp and contains no entry
older than max_minutes relative to the time of the last add. -/
theorem C6_price_buffer (W : ℚ) (adds : List (ℚ × ℚ))
    (hmono : List.Chain' (fun a b => a.1 ≤ b.1) adds) :
    List.Chain' (fun a b => a.1 ≤ b.1) (PriceBuffer.runAdds W adds) ∧
    (∀ lastA ∈ adds.getLast?, ∀ e ∈ PriceBuffer.runAdds W adds,
      lastA.1 - W ≤ e.1) := by
  have h := PriceBuffer.foldAdds W adds [] ((adds.headD (0, 0)).1)
    List.chain'_nil (by intro e he; exact absurd he (List.not_mem_nil e)) hmono
    (by
      intro a ha
      cases adds with
      | nil => simp at ha
      | cons x rest =>
        simp only [List.head?_cons, Option.mem_def, Option.some.injEq] at ha
        subst ha
        simp)
  exact ⟨h.1, fun lastA hlast e he => (h.2 lastA hlast e he).2⟩

/-- Witness for C6 at a concrete input: adds at minutes 0 and 10 with a 7-minute
window leave only the entry from minute 10, trivially ordered and fresh. -/
theorem C6_price_buffer_witness :
    List.Chain' (fun a b => a.1 ≤ b.1) (PriceBuffer.runAdds 7 [(0, 5), (10, 6)]) ∧
    (∀ lastA ∈ [((0 : ℚ), (5 : ℚ)), (10, 6)].getLast?,
      ∀ e ∈ PriceBuffer.runAdds 7 [(0, 5), (10, 6)], lastA.1 - 7 ≤ e.1) :=
  C6_price_buffer 7 [(0, 5), (10, 6)]
    (List.chain'_cons.2 ⟨by norm_num, List.chain'_singleton _⟩)

/-- C5: a cache lookup younger than the TTL returns the stored series without an
underlying fetch, so two gets within the TTL of a successful fetch cost exactly
one fetch while gets spanning at least the TTL cost two; and a failed fetch
stores nothing and surfaces as a no-data result instead of raising. -/
theorem C5_klines_cache (κ : Type) [DecidableEq κ] :
    (∀ (cache : κ → Option (ℚ × List ℚ)) (key : κ) (ts now : ℚ) (d : List ℚ)
        (fetch : Option (List ℚ)),
      cache key = some (ts, d) → now - ts < KlinesCache.KLINES_CACHE_TTL →
      KlinesCache.get_klines_cached KlinesCache.KLINES_CACHE_TTL cache key now fetch =
        (some d, cache, false)) ∧
    (∀ (cache : κ → Option (ℚ × List ℚ)) (key : κ) (now : ℚ),
      (∀ c, cache key = some c → KlinesCache.KLINES_CACHE_TTL ≤ now - c.1) →
      KlinesCache.get_klines_cached KlinesCache.KLINES_CACHE_TTL cache key now none =
        (none, cache, true)) ∧
    (∀ (cache : κ → Option (ℚ × List ℚ)) (key : κ) (t1 t2 : ℚ) (d : List ℚ)
        (fetch2 : Option (List ℚ)),
      cache key = none → d ≠ [] →
      KlinesCache.get_klines_cached KlinesCache.KLINES_CACHE_TTL cache key t1 (some d) =
        (some d, Function.update cache key (some (t1, d)), true) ∧
      (t2 - t1 < KlinesCache.KLINES_CACHE_TTL →
        KlinesCache.get_klines_cached KlinesCache.KLINES_CACHE_TTL
          (Function.update cache key (some (t1, d))) key t2 fetch2 =
          (some d, Function.update cache key (some (t1, d)), false)) ∧
      (KlinesCache.KLINES_CACHE_TTL ≤ t2 - t1 →
        (KlinesCache.get_klines_cached KlinesCache.KLINES_CACHE_TTL
          (Function.update cache key (some (t1, d))) key t2 fetch2).2.2 = true)) := by
  refine ⟨?_, ?_, ?_⟩
  · intro cache key ts now d fetch hck hlt
    simp [KlinesCache.get_klines_cached, hck, hlt]
  · intro cache key now hstale
    simp only [KlinesCache.get_klines_cached]
    cases hck : cache key with
    | none => simp
    | some c =>
      have := hstale c hck
      simp [not_lt.2 this]
  · intro cache key t1 t2 d fetch2 hck hd
    have hne : d.isEmpty = false := by
      cases d with
      | nil => exact absurd rfl hd
      | cons x xs => rfl
    refine ⟨?_, ?_, ?_⟩
    · simp [KlinesCache.get_klines_cached, hck, hne]
    · intro hlt
      simp [KlinesCache.get_klines_cached, Function.update_same, hlt]
    · intro hge
      simp only [KlinesCache.get_klines_cached, Function.update_same]
      rcases fetch2 with _ | d2
      · simp [not_lt.2 hge]
      · simp [not_lt.2 hge]

/-- Witness for C5 at concrete inputs: an empty cache, a successful fetch of [1]
at time 0, a second get at time 10 (hit, no fetch), a third at time 30
(refetch), and a failed fetch on an empty cache. -/
theorem C5_klines_cache_witness :
    KlinesCache.get_klines_cached KlinesCache.KLINES_CACHE_TTL
        (fun _ : ℕ => none) 0 0 (some [1]) =
      (some [1], Function.update (fun _ : ℕ => none) 0 (some ((0 : ℚ), [(1 : ℚ)])), true) ∧
    KlinesCache.get_klines_cached KlinesCache.KLINES_CACHE_TTL
        (Function.update (fun _ : ℕ => none) 0 (some ((0 : ℚ), [(1 : ℚ)]))) 0 10 none =
      (some [1], Function.update (fun _ : ℕ => none) 0 (some ((0 : ℚ), [(1 : ℚ)])), false) ∧
    (KlinesCache.get_klines_cached KlinesCache.KLINES_CACHE_TTL
        (Function.update (fun _ : ℕ => none) 0 (some ((0 : ℚ), [(1 : ℚ)]))) 0 30 none).2.2 =
      true ∧
    KlinesCache.get_klines_cached KlinesCache.KLINES_CACHE_TTL
        (fun _ : ℕ => none) 0 0 none = (none, (fun _ : ℕ => none), true) := by
  obtain ⟨hhit, hfail, hpair⟩ := C5_klines_cache ℕ
  obtain ⟨hfirst, hsecond, hthird⟩ :=
    hpair (fun _ => none) 0 0 10 [1] none rfl (by simp)
  obtain ⟨_, _, hthird'⟩ :=
    hpair (fun _ => none) 0 0 30 [1] none rfl (by simp)
  refine ⟨hfirst, ?_, ?_, ?_⟩
  · exact hsecond (by norm_num [KlinesCache.KLINES_CACHE_TTL])
  · exact hthird' (by norm_num [KlinesCache.KLINES_CACHE_TTL])
  · exact hfail (fun _ => none) 0 0 (by intro c hc; cases hc)

/-- C3: for every price list and every period ≥ 1, RSICalculator.calculate
returns a list of the input's length, its first min(period, length) values are
the sentinel 0, and the whole list coincides with the specification's form
rsiSpec: one oscillator value rsiValue per computed index, whose smoothed
averages are seeded as the simple mean over the first period deltas and then
follow Wilder's recurrence avg = (avg*(period-1) + newValue)/period. -/
theorem C3_rsi_calculate (prices : List ℚ) (period : ℕ) (hp : 1 ≤ period) :
    (RSICalculator.calculate prices period).length = prices.length ∧
    (RSICalculator.calculate prices period).take (min period prices.length) =
      List.replicate (min period prices.length) 0 ∧
    RSICalculator.calculate prices period = RSICalculator.rsiSpec prices period := by
  refine ⟨RSICalculator.calculate_length prices period hp, ?_,
    RSICalculator.calculate_eq_rsiSpec prices period hp⟩
  rw [RSICalculator.calculate_eq_rsiSpec prices period hp, RSICalculator.rsiSpec,
    List.take_left' (List.length_replicate _ _)]

/-- Witness for C3 at a concrete input: prices [1, 2, 3, 2] with period 2. -/
theorem C3_rsi_calculate_witness :
    (RSICalculator.calculate [1, 2, 3, 2] 2).length = ([1, 2, 3, 2] : List ℚ).length ∧
    (RSICalculator.calculate [1, 2, 3, 2] 2).take (min 2 ([1, 2, 3, 2] : List ℚ).length) =
      List.replicate (min 2 ([1, 2, 3, 2] : List ℚ).length) 0 ∧
    RSICalculator.calculate [1, 2, 3, 2] 2 = RSICalculator.rsiSpec [1, 2, 3, 2] 2 :=
  C3_rsi_calculate [1, 2, 3, 2] 2 (by norm_num)

/-- C9: for a strictly increasing price series longer than the period every
oscillator value after the sentinel region is exactly 100, and for a strictly
decreasing series exactly 0 (so the values trivially converge to 100 and to 0
respectively). -/
theorem C9_rsi_convergence (prices : List ℚ) (period : ℕ) (hp : 1 ≤ period)
    (hn : period < prices.length) :
    (List.Chain' (· < ·) prices → ∀ i, period ≤ i → i < prices.length →
      (RSICalculator.calculate prices period).getD i 0 = 100) ∧
    (List.Chain' (· > ·) prices → ∀ i, period ≤ i → i < prices.length →
      (RSICalculator.calculate prices period).getD i 0 = 0) := by
  constructor
  · intro hinc i hip hin
    rw [RSICalculator.calculate_const_inc prices period hp hn hinc]
    exact RSICalculator.getD_replicate_append 100 period (prices.length - period) i hip
      (by omega)
  · intro hdec i hip hin
    rw [RSICalculator.calculate_const_dec prices period hp hn hdec]
    exact RSICalculator.getD_replicate_append 0 period (prices.length - period) i hip
      (by omega)

/-- Witness for C9 at concrete inputs: computed oscillator values of the
strictly increasing series [0, 1, 2] are 100 and of the strictly decreasing
series [2, 1, 0] are 0 (period 1, index 2). -/
theorem C9_rsi_convergence_witness :
    (RSICalculator.calculate [0, 1, 2] 1).getD 2 0 = 100 ∧
    (RSICalculator.calculate [2, 1, 0] 1).getD 2 0 = 0 := by
  constructor
  · exact (C9_rsi_convergence [0, 1, 2] 1 (by norm_num) (by norm_num)).1
      (by norm_num [List.chain'_cons]) 2 (by norm_num) (by norm_num)
  · exact (C9_rsi_convergence [2, 1, 0] 1 (by norm_num) (by norm_num)).2
      (by norm_num [List.chain'_cons]) 2 (by norm_num) (by norm_num)

/-- C2: in the optimized verification step, if the 1h momentum value is not
extreme then no 15m fetch is performed and no alert is emitted; and an alert is
emitted only when the momentum values of both timeframes are extreme. -/
theorem C2_short_circuit (period : ℕ) (ob os cooldown lastSignal now : ℚ)
    (k1h k15m c5m c5mDirect : Option (List ℚ)) (chartOk : Bool) :
    (¬(ob < RSICalculator.get_last_rsi (k1h.getD []) period ∨
        RSICalculator.get_last_rsi (k1h.getD []) period < os) →
      (HybridOptimized.verify_with_rsi period ob os cooldown lastSignal now
        k1h k15m c5m c5mDirect chartOk).fetched15m = false ∧
      (HybridOptimized.verify_with_rsi period ob os cooldown lastSignal now
        k1h k15m c5m c5mDirect chartOk).alerted = false) ∧
    ((HybridOptimized.verify_with_rsi period ob os cooldown lastSignal now
        k1h k15m c5m c5mDirect chartOk).alerted = true →
      (ob < RSICalculator.get_last_rsi (k1h.getD []) period ∨
        RSICalculator.get_last_rsi (k1h.getD []) period < os) ∧
      (ob < RSICalculator.get_last_rsi (k15m.getD []) period ∨
        RSICalculator.get_last_rsi (k15m.getD []) period < os)) := by
  simp only [HybridOptimized.verify_with_rsi, HybridOptimized.send_signal]
  split_ifs <;>
    simp_all [Bool.or_eq_true, decide_eq_true_eq, Bool.not_eq_true',
      Bool.and_eq_true, decide_eq_false_iff_not]

/-- Witness for C2 at a concrete input: with bounds set to 1000 and -5 the RSI
value 100 of the increasing series is not extreme, so the 15m data is never
requested and nothing is alerted. -/
theorem C2_short_circuit_witness :
    (HybridOptimized.verify_with_rsi 14 1000 (-5) 300 0 1000
      (some upList30) (some upList30) none none false).fetched15m = false ∧
    (HybridOptimized.verify_with_rsi 14 1000 (-5) 300 0 1000
      (some upList30) (some upList30) none none false).alerted = false := by
  refine (C2_short_circuit 14 1000 (-5) 300 0 1000
    (some upList30) (some upList30) none none false).1 ?_
  rw [Option.getD_some, get_last_rsi_upList30]
  norm_num

/-- C10 (amended): for identical 1h and 15m candle inputs, when the symbol's
cooldown is not active the optimized short-circuit verification reaches the
alert decision exactly when the sequential always-both-fetch variant does;
under an active cooldown the optimized variant additionally suppresses the
alert, a check the sequential variant leaves to its caller. -/
theorem C10_refinement (period : ℕ) (ob os cooldown lastSignal now : ℚ)
    (k1h k15m c5m c5mDirect : Option (List ℚ)) (chartOk : Bool)
    (h : ¬(now - lastSignal < cooldown)) :
    (HybridOptimized.verify_with_rsi period ob os cooldown lastSignal now
      k1h k15m c5m c5mDirect chartOk).alerted =
    Hybrid.verify_with_rsi period ob os k1h k15m := by
  simp only [HybridOptimized.verify_with_rsi, Hybrid.verify_with_rsi,
    HybridOptimized.send_signal, if_neg h]
  split_ifs <;>
    simp_all [Bool.or_eq_true, decide_eq_true_eq, Bool.not_eq_true',
      Bool.and_eq_true, decide_eq_false_iff_not] <;>
    omega

/-- Counterexample to C10 as stated: with identical candle inputs and identical
cooldown state (alert recorded at 0, checked at 100, window 300 — cooldown
active), the optimized variant does not alert while the sequential
verify_with_rsi of run_hybrid.py, which contains no cooldown check, does. -/
theorem C10_refinement_counterexample :
    (HybridOptimized.verify_with_rsi 14 70 30 300 0 100
      (some upList30) (some upList30) none none false).alerted = false ∧
    Hybrid.verify_with_rsi 14 70 30 (some upList30) (some upList30) = true := by
  constructor
  · norm_num [HybridOptimized.verify_with_rsi]
  · have hlen : upList30.length = 30 := by norm_num [upList30]
    simp only [Hybrid.verify_with_rsi, isData, Option.getD_some, hlen,
      get_last_rsi_upList30]
    norm_num [upList30]

/-- Witness for C10 at a concrete input: outside the cooldown both variants
alert on the strictly increasing series, whose RSI 100 is extreme for bounds
70/30. -/
theorem C10_refinement_witness :
    (HybridOptimized.verify_with_rsi 14 70 30 300 0 1000
      (some upList30) (some upList30) none none false).alerted =
    Hybrid.verify_with_rsi 14 70 30 (some upList30) (some upList30) :=
  C10_refinement 14 70 30 300 0 1000 (some upList30) (some upList30) none none false
    (by norm_num)

/-- C4 (amended): a failed or insufficient candle fetch (no data, or fewer than
30 closes, on either timeframe) aborts the verification task with no alert and
no cooldown update; and the cooldown record is updated exactly when the alert
is confirmed (both timeframes extreme), at the start of the send routine and
regardless of whether delivery succeeds. -/
theorem C4_failure_semantics (period : ℕ) (ob os cooldown lastSignal now : ℚ)
    (k1h k15m c5m c5mDirect : Option (List ℚ)) (chartOk : Bool) :
    (isData k1h = false →
      (HybridOptimized.verify_with_rsi period ob os cooldown lastSignal now
        k1h k15m c5m c5mDirect chartOk).alerted = false ∧
      (HybridOptimized.verify_with_rsi period ob os cooldown lastSignal now
        k1h k15m c5m c5mDirect chartOk).cooldownUpdated = false) ∧
    ((k1h.getD []).length < 30 →
      (HybridOptimized.verify_with_rsi period ob os cooldown lastSignal now
        k1h k15m c5m c5mDirect chartOk).alerted = false ∧
      (HybridOptimized.verify_with_rsi period ob os cooldown lastSignal now
        k1h k15m c5m c5mDirect chartOk).cooldownUpdated = false) ∧
    (isData k15m = false →
      (HybridOptimized.verify_with_rsi period ob os cooldown lastSignal now
        k1h k15m c5m c5mDirect chartOk).alerted = false ∧
      (HybridOptimized.verify_with_rsi period ob os cooldown lastSignal now
        k1h k15m c5m c5mDirect chartOk).cooldownUpdated = false) ∧
    ((k15m.getD []).length < 30 →
      (HybridOptimized.verify_with_rsi period ob os cooldown lastSignal now
        k1h k15m c5m c5mDirect chartOk).alerted = false ∧
      (HybridOptimized.verify_with_rsi period ob os cooldown lastSignal now
        k1h k15m c5m c5mDirect chartOk).cooldownUpdated = false) ∧
    (HybridOptimized.verify_with_rsi period ob os cooldown lastSignal now
        k1h k15m c5m c5mDirect chartOk).cooldownUpdated =
      (HybridOptimized.verify_with_rsi period ob os cooldown lastSignal now
        k1h k15m c5m c5mDirect chartOk).alerted := by
  simp only [HybridOptimized.verify_with_rsi, HybridOptimized.send_signal]
  split_ifs <;>
    simp_all [Bool.or_eq_true, decide_eq_true_eq, Bool.not_eq_true',
      Bool.and_eq_true, decide_eq_false_iff_not]

/-- Counterexample to C4 as stated: a confirmed alert whose delivery fails (no
5m candles can be fetched, so no photo is ever sent) still updates the cooldown
record, because send_signal writes last_signal_time before attempting delivery;
the record is therefore not updated only after a confirmed alert has been
delivered, as the claim stated. -/
theorem C4_failure_semantics_counterexample :
    (HybridOptimized.verify_with_rsi 14 70 30 300 0 1000
      (some upList30) (some upList30) none none false).cooldownUpdated = true ∧
    (HybridOptimized.verify_with_rsi 14 70 30 300 0 1000
      (some upList30) (some upList30) none none false).photoSent = false := by
  have hlen : upList30.length = 30 := by norm_num [upList30]
  simp only [HybridOptimized.verify_with_rsi, HybridOptimized.send_signal, isData,
    Option.getD_some, hlen, get_last_rsi_upList30]
  norm_num [upList30]

/-- Witness for C4 at a concrete input: with no 1h data the task aborts with no
alert and no cooldown update. -/
theorem C4_failure_semantics_witness :
    (HybridOptimized.verify_with_rsi 14 70 30 300 0 1000
      none (some upList30) none none false).alerted = false ∧
    (HybridOptimized.verify_with_rsi 14 70 30 300 0 1000
      none (some upList30) none none false).cooldownUpdated = false :=
  (C4_failure_semantics 14 70 30 300 0 1000
    none (some upList30) none none false).1 rfl

/-- C7: each permit of sequential RateLimiter.wait calls is granted no earlier
than 1/requestsPerSecond after the previously granted permit (the grant times
form a chain spaced by at least the minimum interval), so N permits take at
least (N-1)/requestsPerSecond in aggregate, measured from the first grant to the
last. -/
theorem C7_rate_limiter_spacing (rps lastRequestTime : ℚ) (calls : List (ℚ × ℚ))
    (hrps : 0 < rps) (hslack : ∀ c ∈ calls, 0 ≤ c.2) (hne : calls ≠ []) :
    List.Chain' (fun a b => a + 1 / rps ≤ b)
      (RateLimiter.grants (1 / rps) lastRequestTime calls) ∧
    ((calls.length : ℚ) - 1) * (1 / rps) ≤
      (RateLimiter.grants (1 / rps) lastRequestTime calls).getLastD 0 -
        (RateLimiter.grants (1 / rps) lastRequestTime calls).headD 0 := by
  have hchain := RateLimiter.grants_chain (1 / rps) calls hslack lastRequestTime
  refine ⟨hchain, ?_⟩
  have hlen := RateLimiter.grants_length (1 / rps) calls lastRequestTime
  have hne' : RateLimiter.grants (1 / rps) lastRequestTime calls ≠ [] := by
    intro h
    rw [h] at hlen
    exact hne (List.length_eq_zero.1 hlen.symm)
  have := RateLimiter.chain_spacing_total (1 / rps) _ hchain hne'
  rw [hlen] at this
  exact this

/-- Witness for C7 at a concrete input: two back-to-back calls at time 0 with
rate 2 per second are granted at times 1/2 and 1, half a second apart. -/
theorem C7_rate_limiter_spacing_witness :
    List.Chain' (fun a b => a + 1 / (2 : ℚ) ≤ b)
      (RateLimiter.grants (1 / (2 : ℚ)) 0 [(0, 0), (0, 0)]) ∧
    ((([((0 : ℚ), (0 : ℚ)), (0, 0)].length : ℚ)) - 1) * (1 / (2 : ℚ)) ≤
      (RateLimiter.grants (1 / (2 : ℚ)) 0 [(0, 0), (0, 0)]).getLastD 0 -
        (RateLimiter.grants (1 / (2 : ℚ)) 0 [(0, 0), (0, 0)]).headD 0 :=
  C7_rate_limiter_spacing 2 0 [(0, 0), (0, 0)] (by norm_num)
    (by intro c hc; rcases List.mem_cons.1 hc with h | h <;> simp_all)
    (by simp)

/-- C8: immediately after recording an alert for a symbol the cooldown check
reports it ineligible; with the alert recorded at time t it is eligible at a
later instant exactly when the cooldown window has elapsed; and a symbol that
was never alerted is eligible (its default last-alert time is 0, so this needs
the clock to have passed the cooldown width, which a wall clock always has). -/
theorem C8_cooldown (κ : Type) [DecidableEq κ] (m : κ → Option ℚ) (S : κ)
    (cooldown t : ℚ) (hcd : 0 < cooldown) :
    Cooldown.is_eligible (Cooldown.record_alert m S t) S cooldown t = false ∧
    (∀ now : ℚ, Cooldown.is_eligible (Cooldown.record_alert m S t) S cooldown now =
      decide (cooldown ≤ now - t)) ∧
    (∀ now : ℚ, m S = none → cooldown ≤ now →
      Cooldown.is_eligible m S cooldown now = true) := by
  refine ⟨?_, ?_, ?_⟩
  · simp [Cooldown.is_eligible, Cooldown.record_alert, Function.update_same, hcd]
  · intro now
    simp only [Cooldown.is_eligible, Cooldown.record_alert, Function.update_same,
      Option.getD_some]
    rcases lt_or_le (now - t) cooldown with h | h
    · simp [h, not_le.2 h]
    · simp [h, not_lt.2 h]
  · intro now hnone hle
    simp [Cooldown.is_eligible, hnone, not_lt.2 hle]

/-- Witness for C8 at a concrete input: record an alert for symbol 0 at time
1000 with a 300-second cooldown; the check is false at 1000, true at 1400, and
a never-alerted map is eligible at 1000. -/
theorem C8_cooldown_witness :
    Cooldown.is_eligible
      (Cooldown.record_alert (fun _ : ℕ => (none : Option ℚ)) 0 1000) 0 300 1000 = false ∧
    Cooldown.is_eligible
      (Cooldown.record_alert (fun _ : ℕ => (none : Option ℚ)) 0 1000) 0 300 1400 = true ∧
    Cooldown.is_eligible (fun _ : ℕ => (none : Option ℚ)) 0 300 1000 = true := by
  obtain ⟨h1, h2, h3⟩ :=
    C8_cooldown ℕ (fun _ => none) 0 300 1000 (by norm_num)
  refine ⟨h1, ?_, h3 1000 rfl (by norm_num)⟩
  rw [h2 1400]
  norm_num

end TelegromBot
